import Mathlib

set_option autoImplicit false

-- Verification of the cordl generator driver (src/main.rs) and its naming
-- configuration (src/generate/config.rs), via a shallow embedding:
-- strings are lists of characters, the driver is a function from its inputs
-- to the sequence of collaborator calls / filesystem effects it performs
-- (its trace) together with its final result.

namespace Cordl

-- ### Naming transforms (src/generate/config.rs)

-- The backtick character, written via its code point.
def backtick : Char := Char.ofNat 96

-- Embedding of Rust `str::replace(char, str)`: every occurrence of the
-- character `c` in `s` is replaced by the string `r`.
def replaceChar (s : List Char) (c : Char) (r : List Char) : List Char :=
  match s with
  | [] => []
  | a :: rest => (if a = c then r else [a]) ++ replaceChar rest c r

-- `GenerationConfig::namespace_cpp`:
-- replace('<',"_").replace('>',"_").replace('`',"_").replace('/',"_").replace('.',"::")
def namespace_cpp (s : List Char) : List Char :=
  replaceChar (replaceChar (replaceChar (replaceChar (replaceChar
    s '<' ['_']) '>' ['_']) backtick ['_']) '/' ['_']) '.' [':', ':']

-- `GenerationConfig::name_cpp`:
-- replace('<',"_").replace('`',"_").replace('>',"_").replace('/',"_").replace('.',"_")
def name_cpp (s : List Char) : List Char :=
  replaceChar (replaceChar (replaceChar (replaceChar (replaceChar
    s '<' ['_']) backtick ['_']) '>' ['_']) '/' ['_']) '.' ['_']

-- `GenerationConfig::namespace_path`:
-- replace('<',"_").replace('>',"_").replace('`',"_").replace('/',"_").replace('.',"/")
def namespace_path (s : List Char) : List Char :=
  replaceChar (replaceChar (replaceChar (replaceChar (replaceChar
    s '<' ['_']) '>' ['_']) backtick ['_']) '/' ['_']) '.' ['/']

-- `GenerationConfig::path_name`:
-- replace('<',"_").replace('>',"_").replace('`',"_").replace('.',"_").replace('/',"_")
def path_name (s : List Char) : List Char :=
  replaceChar (replaceChar (replaceChar (replaceChar (replaceChar
    s '<' ['_']) '>' ['_']) backtick ['_']) '.' ['_']) '/' ['_']

-- Modelled from the spec: a simultaneous per-character substitution, used to
-- state what the claims say each transform computes.
def charSubst (g : Char → List Char) : List Char → List Char
  | [] => []
  | a :: rest => g a ++ charSubst g rest

-- Modelled from the spec: the claimed per-character action of namespace_cpp.
def nsCppChar (a : Char) : List Char :=
  if a = '<' ∨ a = '>' ∨ a = backtick ∨ a = '/' then ['_']
  else if a = '.' then [':', ':'] else [a]

-- Modelled from the spec: the claimed per-character action of name_cpp and
-- path_name (a flat identifier / filesystem path segment).
def flatChar (a : Char) : List Char :=
  if a = '<' ∨ a = '>' ∨ a = backtick ∨ a = '/' ∨ a = '.' then ['_'] else [a]

-- Modelled from the spec: the claimed per-character action of namespace_path.
def nsPathChar (a : Char) : List Char :=
  if a = '<' ∨ a = '>' ∨ a = backtick ∨ a = '/' then ['_']
  else if a = '.' then ['/'] else [a]

theorem replaceChar_append (x y : List Char) (c : Char) (r : List Char) :
    replaceChar (x ++ y) c r = replaceChar x c r ++ replaceChar y c r := by
  induction x with
  | nil => simp [replaceChar]
  | cons a rest ih => simp [replaceChar, ih]

theorem namespace_cpp_append (x y : List Char) :
    namespace_cpp (x ++ y) = namespace_cpp x ++ namespace_cpp y := by
  simp [namespace_cpp, replaceChar_append]

theorem name_cpp_append (x y : List Char) :
    name_cpp (x ++ y) = name_cpp x ++ name_cpp y := by
  simp [name_cpp, replaceChar_append]

theorem namespace_path_append (x y : List Char) :
    namespace_path (x ++ y) = namespace_path x ++ namespace_path y := by
  simp [namespace_path, replaceChar_append]

theorem path_name_append (x y : List Char) :
    path_name (x ++ y) = path_name x ++ path_name y := by
  simp [path_name, replaceChar_append]

theorem namespace_cpp_single (a : Char) : namespace_cpp [a] = nsCppChar a := by
  by_cases h1 : a = '<'
  · subst h1; decide
  by_cases h2 : a = '>'
  · subst h2; decide
  by_cases h3 : a = backtick
  · subst h3; decide
  by_cases h4 : a = '/'
  · subst h4; decide
  by_cases h5 : a = '.'
  · subst h5; decide
  simp [namespace_cpp, replaceChar, nsCppChar, h1, h2, h3, h4, h5]

theorem name_cpp_single (a : Char) : name_cpp [a] = flatChar a := by
  by_cases h1 : a = '<'
  · subst h1; decide
  by_cases h2 : a = '>'
  · subst h2; decide
  by_cases h3 : a = backtick
  · subst h3; decide
  by_cases h4 : a = '/'
  · subst h4; decide
  by_cases h5 : a = '.'
  · subst h5; decide
  simp [name_cpp, replaceChar, flatChar, h1, h2, h3, h4, h5]

theorem namespace_path_single (a : Char) : namespace_path [a] = nsPathChar a := by
  by_cases h1 : a = '<'
  · subst h1; decide
  by_cases h2 : a = '>'
  · subst h2; decide
  by_cases h3 : a = backtick
  · subst h3; decide
  by_cases h4 : a = '/'
  · subst h4; decide
  by_cases h5 : a = '.'
  · subst h5; decide
  simp [namespace_path, replaceChar, nsPathChar, h1, h2, h3, h4, h5]

theorem path_name_single (a : Char) : path_name [a] = flatChar a := by
  by_cases h1 : a = '<'
  · subst h1; decide
  by_cases h2 : a = '>'
  · subst h2; decide
  by_cases h3 : a = backtick
  · subst h3; decide
  by_cases h4 : a = '/'
  · subst h4; decide
  by_cases h5 : a = '.'
  · subst h5; decide
  simp [path_name, replaceChar, flatChar, h1, h2, h3, h4, h5]

theorem namespace_cpp_eq_subst (s : List Char) :
    namespace_cpp s = charSubst nsCppChar s := by
  induction s with
  | nil => decide
  | cons a rest ih =>
    have : a :: rest = [a] ++ rest := rfl
    rw [this, namespace_cpp_append, namespace_cpp_single, ih]
    rfl

theorem name_cpp_eq_subst (s : List Char) :
    name_cpp s = charSubst flatChar s := by
  induction s with
  | nil => decide
  | cons a rest ih =>
    have : a :: rest = [a] ++ rest := rfl
    rw [this, name_cpp_append, name_cpp_single, ih]
    rfl

theorem namespace_path_eq_subst (s : List Char) :
    namespace_path s = charSubst nsPathChar s := by
  induction s with
  | nil => decide
  | cons a rest ih =>
    have : a :: rest = [a] ++ rest := rfl
    rw [this, namespace_path_append, namespace_path_single, ih]
    rfl

theorem path_name_eq_subst (s : List Char) :
    path_name s = charSubst flatChar s := by
  induction s with
  | nil => decide
  | cons a rest ih =>
    have : a :: rest = [a] ++ rest := rfl
    rw [this, path_name_append, path_name_single, ih]
    rfl

/-- C2: each of the four naming transforms is the pure deterministic character
substitution the spec describes: namespace_cpp sends each of the characters
'<', '>', backtick, '/' to '_' and '.' to "::"; name_cpp and path_name send
each of '<', '>', backtick, '/', '.' to '_'; namespace_path sends each of
'<', '>', backtick, '/' to '_' and '.' to '/'. -/
theorem naming_transforms_are_char_substitutions (s : List Char) :
    namespace_cpp s = charSubst nsCppChar s ∧
    name_cpp s = charSubst flatChar s ∧
    path_name s = charSubst flatChar s ∧
    namespace_path s = charSubst nsPathChar s :=
  ⟨namespace_cpp_eq_subst s, name_cpp_eq_subst s, path_name_eq_subst s,
    namespace_path_eq_subst s⟩

/-- C10: name_cpp and path_name are extensionally equal functions even though
the source applies their character replacements in different orders. -/
theorem name_cpp_eq_path_name (s : List Char) : name_cpp s = path_name s :=
  (name_cpp_eq_subst s).trans (path_name_eq_subst s).symm

-- ### The driver (src/main.rs)

-- An observable step of the driver: a call into one of the out-of-scope
-- collaborators (metadata facade, context collection, json export, handlers)
-- or a filesystem effect.  `main` is embedded as the list of these events it
-- performs, in order, together with its final result.
inductive Event where
  | removeDirAll (path : String)
  | createDirAll (path : String)
  | extractInternals
  | readFile (path : String)
  | parseMetadata
  | parseMethods
  | jsonExport (path : String)
  | multiJsonExport (path : String)
  | blacklistInsert (tdi : Nat)
  | warnBlacklistMiss (name : String)
  | makeFrom (tdi : Nat)
  | aliasNestedTypes (tdi : Nat)
  | makeNestedFrom (tdi : Nat)
  | fillGenericMethodInst (entry : Nat)
  | registerUnity
  | registerSystem
  | registerValueType
  | fill (tdi : Nat)
  | removeComments
  | writeAll
  | writeNamespaceHeaders
  | formatFile (path : String)
  | formatError (path : String) (msg : String)
deriving DecidableEq, Repr

-- Outcome of a run: normal success, an error propagated with `?` (non-zero
-- exit with a report), or a Rust panic (index out of bounds / unwrap).
inductive RunResult where
  | ok
  | err (msg : String)
  | panic (msg : String)
deriving DecidableEq, Repr

-- The fields of a brocolib type definition that src/main.rs reads.
structure TypeDef where
  declaring_type_index : Nat
  byval_type_index : Nat
  full_name : String
deriving DecidableEq, Repr

-- The command-line arguments (struct Cli in src/main.rs).
structure Cli where
  metadata : String
  libil2cpp : String
  json : Option String
  multi_json : Option String
  format : Bool
  remove_verbose_comments : Bool
  gen_generic_methods_specializations : Bool
deriving Repr

-- One emitted file as seen by format_files: its path, its on-disk size, and
-- the outcome of running clang-format on it (whether the process could be
-- spawned, what it printed on stderr, and its exit code).
structure FmtFile where
  path : String
  size : Nat
  spawn_ok : Bool
  stderr_out : String
  exit_code : Nat
deriving DecidableEq, Repr

-- The environment a run observes: the decoded metadata tables and the
-- outcome of every external effect the driver performs.
structure Env where
  header_path_exists : Bool
  metadata_read_err : Option String
  elf_read_err : Option String
  parse_ok : Bool
  json_ok : Bool
  multi_json_ok : Bool
  type_defs : List TypeDef
  generic_method_table : List Nat
  method_specs_len : Nat
  types_len : Nat
  write_all_ok : Bool
  write_ns_ok : Bool
  fmt_files : List FmtFile
deriving Repr

def u32_max : Nat := 4294967295

def header_path : String := "./codegen/include"

def dst_internals_path : String := "./codegen/include/cordl_internals"

-- First index (the Rust `find` over `iter().enumerate()`) of a type
-- definition whose full name equals `name`, starting the count at `i`.
def findTdiGo (i : Nat) (tds : List TypeDef) (name : String) : Option Nat :=
  match tds with
  | [] => none
  | td :: rest => if td.full_name = name then some i else findTdiGo (i + 1) rest name

-- HashSet::insert on the blacklist, modelled on a duplicate-free list.
def insertTdi (i : Nat) (st : List Nat) : List Nat :=
  if i ∈ st then st else st ++ [i]

-- The `blacklist_type` closure of src/main.rs: find the first type definition
-- with the requested full name; insert its index if found, warn otherwise.
def blacklist_type (tds : List TypeDef) (st : List Nat) (name : String) :
    List Event × List Nat :=
  match findTdiGo 0 tds name with
  | some i => ([Event.blacklistInsert i], insertTdi i st)
  | none => ([Event.warnBlacklistMiss name], st)

-- The 21 hard-coded blacklist requests of src/main.rs, in call order.
def blacklistNames : List String :=
  [ "UnityEngine.XR.XRInputSubsystemDescriptor"
  , "UnityEngine.XR.XRMeshSubsystemDescriptor"
  , "UnityEngine.XR.XRDisplaySubsystem"
  , "UIToolkitUtilities.Controls.Table"
  , "UnityEngine.InputSystem.InputInteractionContext"
  , "UnityEngine.InputSystem.IInputInteraction"
  , "UnityEngine.InputSystem.LowLevel.ActionEvent"
  , "UnityEngine.InputSystem.Interactions.HoldInteraction"
  , "UnityEngine.InputSystem.Interactions.MultiTapInteraction"
  , "UnityEngine.InputSystem.Interactions.PressInteraction"
  , "UnityEngine.InputSystem.Interactions.TapInteraction"
  , "UnityEngine.InputSystem.Interactions.SlowTapInteraction"
  , "UnityEngine.InputSystem.LowLevel.UseWindowsGamingInputCommand"
  , "UnityEngine.InputSystem.LowLevel.EnableIMECompositionCommand"
  , "UnityEngine.InputSystem.LowLevel.MouseState"
  , "UnityEngine.InputSystem.LowLevel.QueryCanRunInBackground"
  , "UnityEngine.InputSystem.LowLevel.QueryEnabledStateCommand"
  , "UnityEngine.InputSystem.Utilities.InputActionTrace"
  , "UnityEngine.InputSystem.Utilities.InputActionTrace::ActionEventPtr"
  , "UnityEngine.InputSystem.Utilities.InputActionTrace::Enumerator"
  , "System.MonoLimitationAttribute" ]

def blacklistPassGo (tds : List TypeDef) (st : List Nat) (names : List String) :
    List Event × List Nat :=
  match names with
  | [] => ([], st)
  | n :: rest =>
    let r1 := blacklist_type tds st n
    let r2 := blacklistPassGo tds r1.2 rest
    (r1.1 ++ r2.1, r2.2)

def blacklistPass (tds : List TypeDef) : List Event × List Nat :=
  blacklistPassGo tds [] blacklistNames

-- The "Making types" loop: for every type definition it first indexes
-- `metadata_registration.types[byval_type_index]` (a panic when out of
-- bounds), then skips definitions with a declaring type, and creates a
-- context plus nested-type aliases for top-level ones.
def makeLoopGo (i : Nat) (tds : List TypeDef) (types_len : Nat) :
    List Event × Option RunResult :=
  match tds with
  | [] => ([], none)
  | td :: rest =>
    if td.byval_type_index < types_len then
      let here := if td.declaring_type_index = u32_max then
        [Event.makeFrom i, Event.aliasNestedTypes i] else []
      let r := makeLoopGo (i + 1) rest types_len
      (here ++ r.1, r.2)
    else ([], some (RunResult.panic "index out of bounds"))

-- The "Making nested types" loop: `make_nested_from` for every definition
-- that has a declaring type.
def nestedLoopGo (i : Nat) (tds : List TypeDef) : List Event :=
  match tds with
  | [] => []
  | td :: rest =>
    (if td.declaring_type_index = u32_max then [] else [Event.makeNestedFrom i]) ++
      nestedLoopGo (i + 1) rest

-- The "Filling generic methods" loop: for every entry of the generic-method
-- table, look up its method spec (`.get(..).unwrap()`, a panic when the
-- generic-method index has no entry) and fill the specialization.
def genericFillGo (i : Nat) (table : List Nat) (specs_len : Nat) :
    List Event × Option RunResult :=
  match table with
  | [] => ([], none)
  | g :: rest =>
    if g < specs_len then
      let r := genericFillGo (i + 1) rest specs_len
      (Event.fillGenericMethodInst i :: r.1, r.2)
    else ([], some (RunResult.panic "called unwrap on a None value"))

-- The "Filling types" loop: `fill` over every type-definition index.
def fillLoop (n : Nat) : List Event := (List.range n).map Event.fill

-- One clang-format invocation in `format_files`: spawn failure is an error
-- with the missing-clang-format suggestion; non-empty stderr is logged for
-- the file; a non-zero exit status becomes an `ExitStatusError`.
def formatOne (f : FmtFile) : List Event × Option RunResult :=
  if f.spawn_ok = false then
    ([Event.formatFile f.path],
      some (RunResult.err "You may be missing clang-format. Ensure it is on PATH"))
  else
    let errEv := if f.stderr_out = "" then [] else [Event.formatError f.path f.stderr_out]
    if f.exit_code = 0 then (Event.formatFile f.path :: errEv, none)
    else (Event.formatFile f.path :: errEv,
      some (RunResult.err "ExitStatusError"))

-- `try_for_each` over the files: the first failing invocation short-circuits
-- the pass with its error.
def formatFilesGo (files : List FmtFile) : List Event × Option RunResult :=
  match files with
  | [] => ([], none)
  | f :: rest =>
    match formatOne f with
    | (evs, some r) => (evs, some r)
    | (evs, none) =>
      let r2 := formatFilesGo rest
      (evs ++ r2.1, r2.2)

def insertBySize (f : FmtFile) (l : List FmtFile) : List FmtFile :=
  match l with
  | [] => [f]
  | g :: rest => if g.size ≤ f.size then f :: g :: rest else g :: insertBySize f rest

-- `sorted_by(file_size).rev()`: files ordered biggest first.
def sortBySizeDesc (l : List FmtFile) : List FmtFile :=
  match l with
  | [] => []
  | f :: rest => insertBySize f (sortBySizeDesc rest)

-- `format_files` of src/main.rs.
def format_files (files : List FmtFile) : List Event × Option RunResult :=
  formatFilesGo (sortBySizeDesc files)

-- Lines 98-111 of src/main.rs: delete the output root if it exists, recreate
-- it, create the internals directory and extract the static internals files.
def resetEvents (env : Env) : List Event :=
  (if env.header_path_exists then [Event.removeDirAll header_path] else []) ++
  [Event.createDirAll header_path, Event.createDirAll dst_internals_path,
    Event.extractInternals]

-- Everything of `main` before the generation passes: output-root reset,
-- reading and decoding the two inputs, and the two JSON early-return modes.
-- A `some` result is an early exit of `main` with that result.
def preGen (cli : Cli) (env : Env) : List Event × Option RunResult :=
  let ev0 := resetEvents env
  match env.metadata_read_err with
  | some e => (ev0 ++ [Event.readFile cli.metadata],
      some (RunResult.err ("il2cpp metadata: " ++ e)))
  | none =>
    match env.elf_read_err with
    | some e => (ev0 ++ [Event.readFile cli.metadata, Event.readFile cli.libil2cpp],
        some (RunResult.err ("libil2cpp.so shared object: " ++ e)))
    | none =>
      let ev1 := ev0 ++ [Event.readFile cli.metadata, Event.readFile cli.libil2cpp,
        Event.parseMetadata]
      if env.parse_ok = false then (ev1, some (RunResult.err "brocolib metadata parse"))
      else
        let ev2 := ev1 ++ [Event.parseMethods]
        match cli.json with
        | some j => (ev2 ++ [Event.jsonExport j],
            some (if env.json_ok then RunResult.ok else RunResult.err "make_json"))
        | none =>
          match cli.multi_json with
          | some mj => (ev2 ++ [Event.multiJsonExport mj],
              some (if env.multi_json_ok then RunResult.ok
                else RunResult.err "make_json_folder"))
          | none => (ev2, none)

-- The generation passes of `main`: blacklist, top-level creation, nested
-- creation, the switch-gated generic-method fill, handler registration and
-- the fill pass.  A `some` result is a panic that aborts the run.
def genPhase (cli : Cli) (env : Env) : List Event × Option RunResult :=
  let bevs := (blacklistPass env.type_defs).1
  match makeLoopGo 0 env.type_defs env.types_len with
  | (mevs, some r) => (bevs ++ mevs, some r)
  | (mevs, none) =>
    let nevs := nestedLoopGo 0 env.type_defs
    match (if cli.gen_generic_methods_specializations then
        genericFillGo 0 env.generic_method_table env.method_specs_len
      else ([], none)) with
    | (gevs, some r) => (bevs ++ mevs ++ nevs ++ gevs, some r)
    | (gevs, none) =>
      (bevs ++ mevs ++ nevs ++ gevs ++
        [Event.registerUnity, Event.registerSystem, Event.registerValueType] ++
        fillLoop env.type_defs.length, none)

-- The output section of `main`: optional comment removal, `write_all`,
-- `write_namespace_headers`, and the optional formatting pass.
def outputPhase (cli : Cli) (env : Env) : List Event × RunResult :=
  let rc := if cli.remove_verbose_comments then [Event.removeComments] else []
  if env.write_all_ok = false then (rc ++ [Event.writeAll], RunResult.err "write_all")
  else if env.write_ns_ok = false then
    (rc ++ [Event.writeAll, Event.writeNamespaceHeaders],
      RunResult.err "write_namespace_headers")
  else if cli.format then
    match format_files env.fmt_files with
    | (fevs, some r) =>
      (rc ++ [Event.writeAll, Event.writeNamespaceHeaders] ++ fevs, r)
    | (fevs, none) =>
      (rc ++ [Event.writeAll, Event.writeNamespaceHeaders] ++ fevs, RunResult.ok)
  else (rc ++ [Event.writeAll, Event.writeNamespaceHeaders], RunResult.ok)

-- `fn main` of src/main.rs: the trace of events it performs and its result.
def main (cli : Cli) (env : Env) : List Event × RunResult :=
  match preGen cli env with
  | (evs, some r) => (evs, r)
  | (evs, none) =>
    match genPhase cli env with
    | (gevs, some r) => (evs ++ gevs, r)
    | (gevs, none) =>
      let o := outputPhase cli env
      (evs ++ gevs ++ o.1, o.2)

-- ### Event classifiers

def isResetEv : Event → Bool
  | .removeDirAll _ => true
  | .createDirAll _ => true
  | .extractInternals => true
  | _ => false

def isReadEv : Event → Bool
  | .readFile _ => true
  | _ => false

def isParseEv : Event → Bool
  | .parseMetadata => true
  | .parseMethods => true
  | _ => false

def isJsonEv : Event → Bool
  | .jsonExport _ => true
  | .multiJsonExport _ => true
  | _ => false

def isPreEv (e : Event) : Bool :=
  isResetEv e || isReadEv e || isParseEv e || isJsonEv e

def isBlacklistEv : Event → Bool
  | .blacklistInsert _ => true
  | .warnBlacklistMiss _ => true
  | _ => false

def isTopCreateEv : Event → Bool
  | .makeFrom _ => true
  | .aliasNestedTypes _ => true
  | _ => false

def isNestedCreateEv : Event → Bool
  | .makeNestedFrom _ => true
  | _ => false

def isCreateEv (e : Event) : Bool := isTopCreateEv e || isNestedCreateEv e

def isFillGenEv : Event → Bool
  | .fillGenericMethodInst _ => true
  | _ => false

def isRegisterEv : Event → Bool
  | .registerUnity => true
  | .registerSystem => true
  | .registerValueType => true
  | _ => false

def isFillEv : Event → Bool
  | .fill _ => true
  | _ => false

def isGenEv (e : Event) : Bool :=
  isBlacklistEv e || isCreateEv e || isFillGenEv e || isRegisterEv e || isFillEv e

def isWriteEv : Event → Bool
  | .writeAll => true
  | .writeNamespaceHeaders => true
  | _ => false

def isFormatEv : Event → Bool
  | .formatFile _ => true
  | .formatError _ _ => true
  | _ => false

def isOutputEv : Event → Bool
  | .removeComments => true
  | .writeAll => true
  | .writeNamespaceHeaders => true
  | .formatFile _ => true
  | .formatError _ _ => true
  | _ => false

-- `p`-events strictly precede `q`-events in the trace `l`.
def eventsOrdered (l : List Event) (p q : Event → Bool) : Prop :=
  ∀ i, (hi : i < l.length) → ∀ j, (hj : j < l.length) →
    p (l.get ⟨i, hi⟩) = true → q (l.get ⟨j, hj⟩) = true → i < j

theorem eventsOrdered_of_split (l a b : List Event) (p q : Event → Bool)
    (h : l = a ++ b) (ha : ∀ e ∈ a, q e = false) (hb : ∀ e ∈ b, p e = false) :
    eventsOrdered l p q := by
  subst h
  intro i hi j hj hp hq
  rw [List.get_eq_getElem] at hp hq
  rcases Nat.lt_or_ge i a.length with hia | hia
  · rcases Nat.lt_or_ge j a.length with hja | hja
    · exfalso
      rw [List.getElem_append_left hja] at hq
      rw [ha _ (List.getElem_mem hja)] at hq
      exact Bool.false_ne_true hq
    · omega
  · exfalso
    have hib : i - a.length < b.length := by
      simp only [List.length_append] at hi
      omega
    rw [List.getElem_append_right hia] at hp
    rw [hb _ (List.getElem_mem hib)] at hp
    exact Bool.false_ne_true hp

-- ### Segment characterizations

theorem blacklistPassGo_events (tds : List TypeDef) (st : List Nat)
    (names : List String) :
    ∀ e ∈ (blacklistPassGo tds st names).1, isBlacklistEv e = true := by
  induction names generalizing st with
  | nil => simp [blacklistPassGo]
  | cons n rest ih =>
    intro e he
    simp only [blacklistPassGo, List.mem_append] at he
    rcases he with he | he
    · unfold blacklist_type at he
      cases hf : findTdiGo 0 tds n with
      | some i =>
        rw [hf] at he
        simp at he
        subst he
        rfl
      | none =>
        rw [hf] at he
        simp at he
        subst he
        rfl
    · exact ih _ e he

theorem makeLoopGo_events (tds : List TypeDef) (i : Nat) (n : Nat) :
    ∀ e ∈ (makeLoopGo i tds n).1, isTopCreateEv e = true := by
  induction tds generalizing i with
  | nil => simp [makeLoopGo]
  | cons td rest ih =>
    intro e he
    simp only [makeLoopGo] at he
    by_cases hb : td.byval_type_index < n
    · rw [if_pos hb] at he
      simp only [List.mem_append] at he
      rcases he with he | he
      · by_cases hd : td.declaring_type_index = u32_max
        · rw [if_pos hd] at he
          simp at he
          rcases he with rfl | rfl <;> rfl
        · rw [if_neg hd] at he
          simp at he
      · exact ih _ e he
    · rw [if_neg hb] at he
      simp at he

theorem nestedLoopGo_events (tds : List TypeDef) (i : Nat) :
    ∀ e ∈ nestedLoopGo i tds, isNestedCreateEv e = true := by
  induction tds generalizing i with
  | nil => simp [nestedLoopGo]
  | cons td rest ih =>
    intro e he
    simp only [nestedLoopGo, List.mem_append] at he
    rcases he with he | he
    · by_cases hd : td.declaring_type_index = u32_max
      · rw [if_pos hd] at he
        simp at he
      · rw [if_neg hd] at he
        simp at he
        subst he
        rfl
    · exact ih _ e he

theorem genericFillGo_events (table : List Nat) (i : Nat) (m : Nat) :
    ∀ e ∈ (genericFillGo i table m).1, isFillGenEv e = true := by
  induction table generalizing i with
  | nil => simp [genericFillGo]
  | cons g rest ih =>
    intro e he
    simp only [genericFillGo] at he
    by_cases hg : g < m
    · rw [if_pos hg] at he
      simp only [List.mem_cons] at he
      rcases he with rfl | he
      · rfl
      · exact ih _ e he
    · rw [if_neg hg] at he
      simp at he

theorem fillLoop_events (n : Nat) : ∀ e ∈ fillLoop n, isFillEv e = true := by
  intro e he
  simp only [fillLoop, List.mem_map] at he
  rcases he with ⟨k, _, rfl⟩
  rfl

theorem formatOne_events (f : FmtFile) :
    ∀ e ∈ (formatOne f).1, isFormatEv e = true := by
  intro e he
  unfold formatOne at he
  by_cases hs : f.spawn_ok = false
  · rw [if_pos hs] at he
    simp at he
    subst he
    rfl
  · rw [if_neg hs] at he
    by_cases hc : f.exit_code = 0
    · rw [if_pos hc] at he
      simp only [List.mem_cons] at he
      rcases he with rfl | he
      · rfl
      · by_cases hst : f.stderr_out = ""
        · rw [if_pos hst] at he
          simp at he
        · rw [if_neg hst] at he
          simp at he
          subst he
          rfl
    · rw [if_neg hc] at he
      simp only [List.mem_cons] at he
      rcases he with rfl | he
      · rfl
      · by_cases hst : f.stderr_out = ""
        · rw [if_pos hst] at he
          simp at he
        · rw [if_neg hst] at he
          simp at he
          subst he
          rfl

theorem formatFilesGo_events (files : List FmtFile) :
    ∀ e ∈ (formatFilesGo files).1, isFormatEv e = true := by
  induction files with
  | nil => simp [formatFilesGo]
  | cons f rest ih =>
    intro e he
    simp only [formatFilesGo] at he
    rcases hf : formatOne f with ⟨evs, fres⟩
    rw [hf] at he
    cases fres with
    | some r =>
      simp only at he
      exact formatOne_events f e (by rw [hf]; exact he)
    | none =>
      simp only [List.mem_append] at he
      rcases he with he | he
      · exact formatOne_events f e (by rw [hf]; exact he)
      · exact ih e he

theorem format_files_events (files : List FmtFile) :
    ∀ e ∈ (format_files files).1, isFormatEv e = true :=
  fun e he => formatFilesGo_events _ e he

theorem resetEvents_pre (env : Env) :
    ∀ x ∈ resetEvents env, isPreEv x = true := by
  intro x hx
  unfold resetEvents at hx
  rcases List.mem_append.mp hx with hx | hx
  · by_cases hh : env.header_path_exists
    · rw [if_pos hh] at hx
      simp at hx
      subst hx
      rfl
    · rw [if_neg hh] at hx
      simp at hx
  · simp at hx
    rcases hx with rfl | rfl | rfl <;> rfl

theorem preGen_events (cli : Cli) (env : Env) :
    ∀ e ∈ (preGen cli env).1, isPreEv e = true := by
  intro e he
  simp only [preGen] at he
  split at he <;>
    (try split at he) <;>
    (try split at he) <;>
    (try split at he) <;>
    (try split at he) <;>
    (simp only [List.append_assoc, List.cons_append, List.nil_append] at he;
     rcases List.mem_append.mp he with h | h <;>
       first
         | exact resetEvents_pre env e h
         | (fin_cases h <;> rfl))

theorem blacklistPass_events (tds : List TypeDef) :
    ∀ e ∈ (blacklistPass tds).1, isBlacklistEv e = true :=
  fun e he => blacklistPassGo_events tds [] blacklistNames e he

theorem genEv_of_blacklist (x : Event) (hx : isBlacklistEv x = true) :
    isGenEv x = true := by
  simp [isGenEv, hx]

theorem genEv_of_topCreate (x : Event) (hx : isTopCreateEv x = true) :
    isGenEv x = true := by
  simp [isGenEv, isCreateEv, hx]

theorem genEv_of_nestedCreate (x : Event) (hx : isNestedCreateEv x = true) :
    isGenEv x = true := by
  simp [isGenEv, isCreateEv, hx]

theorem genEv_of_fillGen (x : Event) (hx : isFillGenEv x = true) :
    isGenEv x = true := by
  simp [isGenEv, hx]

theorem genEv_of_fill (x : Event) (hx : isFillEv x = true) :
    isGenEv x = true := by
  simp [isGenEv, hx]

theorem outputEv_of_format (x : Event) (hx : isFormatEv x = true) :
    isOutputEv x = true := by
  cases x <;> simp_all [isFormatEv, isOutputEv]

theorem rcEvents_out (b : Bool) :
    ∀ x ∈ (if b = true then [Event.removeComments] else []), isOutputEv x = true := by
  intro x hx
  cases b with
  | false => simp at hx
  | true =>
    simp at hx
    subst hx
    rfl

theorem genPhase_events (cli : Cli) (env : Env) :
    ∀ e ∈ (genPhase cli env).1, isGenEv e = true := by
  intro e he
  simp only [genPhase] at he
  split at he
  next mevs r heq =>
    rcases List.mem_append.mp he with h | h
    · exact genEv_of_blacklist e (blacklistPass_events _ e h)
    · exact genEv_of_topCreate e (makeLoopGo_events _ _ _ e (by rw [heq]; exact h))
  next mevs heq =>
    split at he
    next gevs r heq2 =>
      simp only [List.append_assoc] at he
      rcases List.mem_append.mp he with h | h
      · exact genEv_of_blacklist e (blacklistPass_events _ e h)
      rcases List.mem_append.mp h with h | h
      · exact genEv_of_topCreate e (makeLoopGo_events _ _ _ e (by rw [heq]; exact h))
      rcases List.mem_append.mp h with h | h
      · exact genEv_of_nestedCreate e (nestedLoopGo_events _ _ e h)
      · by_cases hsw : cli.gen_generic_methods_specializations = true
        · rw [if_pos hsw] at heq2
          exact genEv_of_fillGen e (genericFillGo_events _ _ _ e (by rw [heq2]; exact h))
        · rw [if_neg hsw] at heq2
          have : gevs = ([] : List Event) := by
            have := congrArg Prod.fst heq2
            simpa using this.symm
          rw [this] at h
          simp at h
    next gevs heq2 =>
      simp only [List.append_assoc] at he
      rcases List.mem_append.mp he with h | h
      · exact genEv_of_blacklist e (blacklistPass_events _ e h)
      rcases List.mem_append.mp h with h | h
      · exact genEv_of_topCreate e (makeLoopGo_events _ _ _ e (by rw [heq]; exact h))
      rcases List.mem_append.mp h with h | h
      · exact genEv_of_nestedCreate e (nestedLoopGo_events _ _ e h)
      rcases List.mem_append.mp h with h | h
      · by_cases hsw : cli.gen_generic_methods_specializations = true
        · rw [if_pos hsw] at heq2
          exact genEv_of_fillGen e (genericFillGo_events _ _ _ e (by rw [heq2]; exact h))
        · rw [if_neg hsw] at heq2
          have : gevs = ([] : List Event) := by
            have := congrArg Prod.fst heq2
            simpa using this.symm
          rw [this] at h
          simp at h
      rcases List.mem_append.mp h with h | h
      · simp at h
        rcases h with rfl | rfl | rfl <;> rfl
      · exact genEv_of_fill e (fillLoop_events _ e h)

theorem outputPhase_events (cli : Cli) (env : Env) :
    ∀ e ∈ (outputPhase cli env).1, isOutputEv e = true := by
  intro e he
  simp only [outputPhase] at he
  split at he
  · rcases List.mem_append.mp he with h | h
    · exact rcEvents_out _ e h
    · simp at h
      subst h
      rfl
  split at he
  · rcases List.mem_append.mp he with h | h
    · exact rcEvents_out _ e h
    · simp at h
      rcases h with rfl | rfl <;> rfl
  split at he
  · split at he
    next fevs r heq =>
      simp only [List.append_assoc] at he
      rcases List.mem_append.mp he with h | h
      · exact rcEvents_out _ e h
      rcases List.mem_append.mp h with h | h
      · simp at h
        rcases h with rfl | rfl <;> rfl
      · exact outputEv_of_format e (format_files_events _ e (by rw [heq]; exact h))
    next fevs heq =>
      simp only [List.append_assoc] at he
      rcases List.mem_append.mp he with h | h
      · exact rcEvents_out _ e h
      rcases List.mem_append.mp h with h | h
      · simp at h
        rcases h with rfl | rfl <;> rfl
      · exact outputEv_of_format e (format_files_events _ e (by rw [heq]; exact h))
  · rcases List.mem_append.mp he with h | h
    · exact rcEvents_out _ e h
    · simp at h
      rcases h with rfl | rfl <;> rfl

-- ### Inversion and behaviour lemmas

-- The events of a run that passed reading, decoding and both JSON gates.
def preOkEvents (cli : Cli) (env : Env) : List Event :=
  resetEvents env ++ [Event.readFile cli.metadata, Event.readFile cli.libil2cpp,
    Event.parseMetadata, Event.parseMethods]

theorem preGen_none (cli : Cli) (env : Env) (evs : List Event)
    (h : preGen cli env = (evs, none)) :
    evs = preOkEvents cli env ∧ env.metadata_read_err = none ∧
      env.elf_read_err = none ∧ env.parse_ok = true ∧ cli.json = none ∧
      cli.multi_json = none := by
  simp only [preGen] at h
  split at h
  next e1 heq => simp at h
  next heq =>
    split at h
    next e2 heq2 => simp at h
    next heq2 =>
      split at h
      next hpc => simp at h
      next hpc =>
        split at h
        next j heqj => simp at h
        next heqj =>
          split at h
          next mj heqm => simp at h
          next heqm =>
            have hevs : evs = preOkEvents cli env := by
              have := (Prod.mk.injEq _ _ _ _).mp h
              rw [← this.1]
              simp [preOkEvents, List.append_assoc]
            exact ⟨hevs, heq, heq2, by simpa using hpc, heqj, heqm⟩

theorem preGen_ok_of (cli : Cli) (env : Env)
    (hm : env.metadata_read_err = none) (he : env.elf_read_err = none)
    (hp : env.parse_ok = true) (hj : cli.json = none) (hmj : cli.multi_json = none) :
    preGen cli env = (preOkEvents cli env, none) := by
  simp [preGen, hm, he, hp, hj, hmj, preOkEvents, List.append_assoc]

theorem preGen_some_result (cli : Cli) (env : Env) (evs : List Event) (r : RunResult)
    (h : preGen cli env = (evs, some r)) :
    r = RunResult.ok ∨ ∃ m, r = RunResult.err m := by
  simp only [preGen] at h
  split at h
  next e1 heq =>
    simp at h
    exact Or.inr ⟨_, h.2.symm⟩
  next heq =>
    split at h
    next e2 heq2 =>
      simp at h
      exact Or.inr ⟨_, h.2.symm⟩
    next heq2 =>
      split at h
      next hpc =>
        simp at h
        exact Or.inr ⟨_, h.2.symm⟩
      next hpc =>
        split at h
        next j heqj =>
          simp at h
          cases hjo : env.json_ok with
          | true =>
            rw [hjo] at h
            simp at h
            exact Or.inl h.2.symm
          | false =>
            rw [hjo] at h
            simp at h
            exact Or.inr ⟨_, h.2.symm⟩
        next heqj =>
          split at h
          next mj heqm =>
            simp at h
            cases hjo : env.multi_json_ok with
            | true =>
              rw [hjo] at h
              simp at h
              exact Or.inl h.2.symm
            | false =>
              rw [hjo] at h
              simp at h
              exact Or.inr ⟨_, h.2.symm⟩
          next heqm => simp at h

theorem genPhase_none (cli : Cli) (env : Env) (evs : List Event)
    (h : genPhase cli env = (evs, none)) :
    ∃ mevs gevs,
      makeLoopGo 0 env.type_defs env.types_len = (mevs, none) ∧
      (if cli.gen_generic_methods_specializations then
          genericFillGo 0 env.generic_method_table env.method_specs_len
        else ([], none)) = (gevs, none) ∧
      evs = (blacklistPass env.type_defs).1 ++ mevs ++
        nestedLoopGo 0 env.type_defs ++ gevs ++
        [Event.registerUnity, Event.registerSystem, Event.registerValueType] ++
        fillLoop env.type_defs.length := by
  simp only [genPhase] at h
  split at h
  next mevs r heq => simp at h
  next mevs heq =>
    split at h
    next gevs r heq2 => simp at h
    next gevs heq2 =>
      refine ⟨mevs, gevs, heq, heq2, ?_⟩
      have := (Prod.mk.injEq _ _ _ _).mp h
      rw [← this.1]

theorem makeLoopGo_res_none (tds : List TypeDef) (i n : Nat)
    (h : ∀ td ∈ tds, td.byval_type_index < n) :
    (makeLoopGo i tds n).2 = none := by
  induction tds generalizing i with
  | nil => rfl
  | cons td rest ih =>
    simp only [makeLoopGo]
    rw [if_pos (h td (List.mem_cons_self td rest))]
    exact ih (i + 1) (fun x hx => h x (List.mem_cons_of_mem td hx))

theorem makeLoopGo_res_some (tds : List TypeDef) (i n : Nat)
    (h : ∃ td ∈ tds, n ≤ td.byval_type_index) :
    (makeLoopGo i tds n).2 = some (RunResult.panic "index out of bounds") := by
  induction tds generalizing i with
  | nil =>
    rcases h with ⟨td, htd, _⟩
    simp at htd
  | cons td rest ih =>
    simp only [makeLoopGo]
    by_cases hb : td.byval_type_index < n
    · rw [if_pos hb]
      have hrest : ∃ x ∈ rest, n ≤ x.byval_type_index := by
        rcases h with ⟨x, hx, hle⟩
        rcases List.mem_cons.mp hx with rfl | hx
        · omega
        · exact ⟨x, hx, hle⟩
      exact ih (i + 1) hrest
    · rw [if_neg hb]

theorem genericFillGo_res_none (table : List Nat) (i m : Nat)
    (h : ∀ g ∈ table, g < m) :
    (genericFillGo i table m).2 = none ∧
      (genericFillGo i table m).1.length = table.length := by
  induction table generalizing i with
  | nil => exact ⟨rfl, rfl⟩
  | cons g rest ih =>
    simp only [genericFillGo]
    rw [if_pos (h g (List.mem_cons_self g rest))]
    have := ih (i + 1) (fun x hx => h x (List.mem_cons_of_mem g hx))
    simpa using this

theorem genericFillGo_res_some (table : List Nat) (i m : Nat)
    (h : ∃ g ∈ table, m ≤ g) :
    (genericFillGo i table m).2 =
      some (RunResult.panic "called unwrap on a None value") := by
  induction table generalizing i with
  | nil =>
    rcases h with ⟨g, hg, _⟩
    simp at hg
  | cons g rest ih =>
    simp only [genericFillGo]
    by_cases hg : g < m
    · rw [if_pos hg]
      have hrest : ∃ x ∈ rest, m ≤ x := by
        rcases h with ⟨x, hx, hle⟩
        rcases List.mem_cons.mp hx with rfl | hx
        · omega
        · exact ⟨x, hx, hle⟩
      exact ih (i + 1) hrest
    · rw [if_neg hg]

theorem formatOne_res_err (f : FmtFile) (r : RunResult)
    (h : (formatOne f).2 = some r) : ∃ m, r = RunResult.err m := by
  simp only [formatOne] at h
  split at h
  · simp at h
    exact ⟨_, h.symm⟩
  · split at h
    · simp at h
    · simp at h
      exact ⟨_, h.symm⟩

theorem formatFilesGo_res_err (files : List FmtFile) :
    ∀ r, (formatFilesGo files).2 = some r → ∃ m, r = RunResult.err m := by
  induction files with
  | nil =>
    intro r h
    simp [formatFilesGo] at h
  | cons f rest ih =>
    intro r h
    simp only [formatFilesGo] at h
    split at h
    next evs r0 heq =>
      simp at h
      subst h
      exact formatOne_res_err f _ (by rw [heq])
    next evs heq => exact ih r h

theorem outputPhase_result (cli : Cli) (env : Env) :
    (outputPhase cli env).2 = RunResult.ok ∨
      ∃ m, (outputPhase cli env).2 = RunResult.err m := by
  simp only [outputPhase]
  split
  · exact Or.inr ⟨_, rfl⟩
  split
  · exact Or.inr ⟨_, rfl⟩
  split
  · split
    next fevs r heq =>
      have h2 : (formatFilesGo (sortBySizeDesc env.fmt_files)).2 = some r := by
        have := congrArg Prod.snd heq
        simpa [format_files] using this
      rcases formatFilesGo_res_err _ _ h2 with ⟨m, hm⟩
      exact Or.inr ⟨m, by simp [hm]⟩
    next fevs heq => exact Or.inl rfl
  · exact Or.inl rfl

-- ### Classifier exclusions

-- An event of the initial output-root reset (lines 98-101 of src/main.rs).
def isRootResetEv (e : Event) : Bool :=
  match e with
  | .removeDirAll p => decide (p = header_path)
  | .createDirAll p => decide (p = header_path)
  | _ => false

theorem preEv_not (e : Event) (h : isPreEv e = true) :
    isBlacklistEv e = false ∧ isTopCreateEv e = false ∧
    isNestedCreateEv e = false ∧ isCreateEv e = false ∧ isFillGenEv e = false ∧
    isRegisterEv e = false ∧ isFillEv e = false ∧ isWriteEv e = false := by
  cases e <;> simp_all [isPreEv, isResetEv, isReadEv, isParseEv, isJsonEv,
    isBlacklistEv, isTopCreateEv, isNestedCreateEv, isCreateEv, isFillGenEv,
    isRegisterEv, isFillEv, isWriteEv]

theorem blacklistEv_not (e : Event) (h : isBlacklistEv e = true) :
    isTopCreateEv e = false ∧ isNestedCreateEv e = false ∧ isCreateEv e = false ∧
    isFillGenEv e = false ∧ isRegisterEv e = false ∧ isFillEv e = false ∧
    isWriteEv e = false ∧ isReadEv e = false ∧ isJsonEv e = false ∧
    isRootResetEv e = false := by
  cases e <;> simp_all [isBlacklistEv, isTopCreateEv, isNestedCreateEv,
    isCreateEv, isFillGenEv, isRegisterEv, isFillEv, isWriteEv, isReadEv,
    isJsonEv, isRootResetEv]

theorem topCreateEv_not (e : Event) (h : isTopCreateEv e = true) :
    isBlacklistEv e = false ∧ isNestedCreateEv e = false ∧ isFillGenEv e = false ∧
    isRegisterEv e = false ∧ isFillEv e = false ∧ isWriteEv e = false ∧
    isReadEv e = false ∧ isJsonEv e = false ∧ isRootResetEv e = false := by
  cases e <;> simp_all [isBlacklistEv, isTopCreateEv, isNestedCreateEv,
    isFillGenEv, isRegisterEv, isFillEv, isWriteEv, isReadEv, isJsonEv,
    isRootResetEv]

theorem nestedCreateEv_not (e : Event) (h : isNestedCreateEv e = true) :
    isBlacklistEv e = false ∧ isTopCreateEv e = false ∧ isFillGenEv e = false ∧
    isRegisterEv e = false ∧ isFillEv e = false ∧ isWriteEv e = false ∧
    isReadEv e = false ∧ isJsonEv e = false ∧ isRootResetEv e = false := by
  cases e <;> simp_all [isBlacklistEv, isTopCreateEv, isNestedCreateEv,
    isFillGenEv, isRegisterEv, isFillEv, isWriteEv, isReadEv, isJsonEv,
    isRootResetEv]

theorem fillGenEv_not (e : Event) (h : isFillGenEv e = true) :
    isBlacklistEv e = false ∧ isTopCreateEv e = false ∧
    isNestedCreateEv e = false ∧ isCreateEv e = false ∧ isRegisterEv e = false ∧
    isFillEv e = false ∧ isWriteEv e = false ∧ isReadEv e = false ∧
    isJsonEv e = false ∧ isRootResetEv e = false := by
  cases e <;> simp_all [isBlacklistEv, isTopCreateEv, isNestedCreateEv,
    isCreateEv, isFillGenEv, isRegisterEv, isFillEv, isWriteEv, isReadEv,
    isJsonEv, isRootResetEv]

theorem registerEv_not (e : Event) (h : isRegisterEv e = true) :
    isBlacklistEv e = false ∧ isTopCreateEv e = false ∧
    isNestedCreateEv e = false ∧ isCreateEv e = false ∧ isFillGenEv e = false ∧
    isFillEv e = false ∧ isWriteEv e = false ∧ isReadEv e = false ∧
    isJsonEv e = false ∧ isRootResetEv e = false := by
  cases e <;> simp_all [isBlacklistEv, isTopCreateEv, isNestedCreateEv,
    isCreateEv, isFillGenEv, isRegisterEv, isFillEv, isWriteEv, isReadEv,
    isJsonEv, isRootResetEv]

theorem fillEv_not (e : Event) (h : isFillEv e = true) :
    isBlacklistEv e = false ∧ isTopCreateEv e = false ∧
    isNestedCreateEv e = false ∧ isCreateEv e = false ∧ isFillGenEv e = false ∧
    isRegisterEv e = false ∧ isWriteEv e = false ∧ isReadEv e = false ∧
    isJsonEv e = false ∧ isRootResetEv e = false := by
  cases e <;> simp_all [isBlacklistEv, isTopCreateEv, isNestedCreateEv,
    isCreateEv, isFillGenEv, isRegisterEv, isFillEv, isWriteEv, isReadEv,
    isJsonEv, isRootResetEv]

theorem genEv_not (e : Event) (h : isGenEv e = true) :
    isWriteEv e = false ∧ isReadEv e = false ∧ isJsonEv e = false ∧
    isRootResetEv e = false ∧ isParseEv e = false := by
  cases e <;> simp_all [isGenEv, isBlacklistEv, isTopCreateEv,
    isNestedCreateEv, isCreateEv, isFillGenEv, isRegisterEv, isFillEv,
    isWriteEv, isReadEv, isJsonEv, isRootResetEv, isParseEv]

theorem outputEv_not (e : Event) (h : isOutputEv e = true) :
    isBlacklistEv e = false ∧ isTopCreateEv e = false ∧
    isNestedCreateEv e = false ∧ isCreateEv e = false ∧ isFillGenEv e = false ∧
    isRegisterEv e = false ∧ isFillEv e = false ∧ isReadEv e = false ∧
    isJsonEv e = false ∧ isRootResetEv e = false := by
  cases e <;> simp_all [isOutputEv, isBlacklistEv, isTopCreateEv,
    isNestedCreateEv, isCreateEv, isFillGenEv, isRegisterEv, isFillEv,
    isReadEv, isJsonEv, isRootResetEv]

theorem genEv_split (e : Event) (h : isGenEv e = true) :
    isBlacklistEv e = true ∨ isTopCreateEv e = true ∨
    isNestedCreateEv e = true ∨ isFillGenEv e = true ∨ isRegisterEv e = true ∨
    isFillEv e = true := by
  cases e <;> simp_all [isGenEv, isBlacklistEv, isTopCreateEv,
    isNestedCreateEv, isCreateEv, isFillGenEv, isRegisterEv, isFillEv]

-- ### Claim C1

/-- C1: in every run that reaches emission (the trace contains the writeAll
event), the generation passes execute in strict order: every blacklist event
precedes every creation event, the top-level creation pass precedes the
nested-type creation pass, handler registration precedes every fill event,
and every fill event precedes every output write. -/
theorem generation_passes_strictly_ordered (cli : Cli) (env : Env)
    (hW : Event.writeAll ∈ (main cli env).1) :
    eventsOrdered (main cli env).1 isBlacklistEv isCreateEv ∧
    eventsOrdered (main cli env).1 isTopCreateEv isNestedCreateEv ∧
    eventsOrdered (main cli env).1 isRegisterEv isFillEv ∧
    eventsOrdered (main cli env).1 isFillEv isWriteEv := by
  rcases hp : preGen cli env with ⟨pevs, pres⟩
  cases pres with
  | some r =>
    exfalso
    have hm : (main cli env).1 = pevs := by simp [main, hp]
    rw [hm] at hW
    have h1 := preGen_events cli env Event.writeAll (by rw [hp]; exact hW)
    simp [isPreEv, isResetEv, isReadEv, isParseEv, isJsonEv] at h1
  | none =>
    rcases hg : genPhase cli env with ⟨gevs, gres⟩
    cases gres with
    | some r =>
      exfalso
      have hm : (main cli env).1 = pevs ++ gevs := by simp [main, hp, hg]
      rw [hm] at hW
      rcases List.mem_append.mp hW with h | h
      · have h1 := preGen_events cli env _ (by rw [hp]; exact h)
        simp [isPreEv, isResetEv, isReadEv, isParseEv, isJsonEv] at h1
      · have h1 := genPhase_events cli env _ (by rw [hg]; exact h)
        simp [isGenEv, isBlacklistEv, isCreateEv, isTopCreateEv,
          isNestedCreateEv, isFillGenEv, isRegisterEv, isFillEv] at h1
    | none =>
      obtain ⟨mevs, ggevs, hmk, hgf, hev⟩ := genPhase_none cli env gevs hg
      have hm : (main cli env).1 = pevs ++ gevs ++ (outputPhase cli env).1 := by
        simp [main, hp, hg]
      have hpre : ∀ x ∈ pevs, isPreEv x = true :=
        fun x hx => preGen_events cli env x (by rw [hp]; exact hx)
      have hout : ∀ x ∈ (outputPhase cli env).1, isOutputEv x = true :=
        outputPhase_events cli env
      have hB : ∀ x ∈ (blacklistPass env.type_defs).1, isBlacklistEv x = true :=
        blacklistPass_events _
      have hM : ∀ x ∈ mevs, isTopCreateEv x = true :=
        fun x hx => makeLoopGo_events _ _ _ x (by rw [hmk]; exact hx)
      have hN : ∀ x ∈ nestedLoopGo 0 env.type_defs, isNestedCreateEv x = true :=
        nestedLoopGo_events _ _
      have hG : ∀ x ∈ ggevs, isFillGenEv x = true := by
        by_cases hsw : cli.gen_generic_methods_specializations = true
        · rw [if_pos hsw] at hgf
          exact fun x hx => genericFillGo_events _ _ _ x (by rw [hgf]; exact hx)
        · rw [if_neg hsw] at hgf
          have hnil : ggevs = [] := by
            have := congrArg Prod.fst hgf
            simpa using this.symm
          intro x hx
          rw [hnil] at hx
          simp at hx
      have hR : ∀ x ∈ [Event.registerUnity, Event.registerSystem,
          Event.registerValueType], isRegisterEv x = true := by
        intro x hx
        fin_cases hx <;> rfl
      have hF : ∀ x ∈ fillLoop env.type_defs.length, isFillEv x = true :=
        fillLoop_events _
      refine ⟨?_, ?_, ?_, ?_⟩
      · -- blacklist before create
        apply eventsOrdered_of_split _
          (pevs ++ (blacklistPass env.type_defs).1)
          (mevs ++ nestedLoopGo 0 env.type_defs ++ ggevs ++
            [Event.registerUnity, Event.registerSystem, Event.registerValueType] ++
            fillLoop env.type_defs.length ++ (outputPhase cli env).1)
        · rw [hm, hev]
          simp [List.append_assoc]
        · intro x hx
          rcases List.mem_append.mp hx with h | h
          · exact (preEv_not x (hpre x h)).2.2.2.1
          · exact (blacklistEv_not x (hB x h)).2.2.1
        · intro x hx
          rcases List.mem_append.mp hx with hx | h
          rcases List.mem_append.mp hx with hx | h5
          rcases List.mem_append.mp hx with hx | h4
          rcases List.mem_append.mp hx with hx | h3
          rcases List.mem_append.mp hx with h1 | h2
          · exact (topCreateEv_not x (hM x h1)).1
          · exact (nestedCreateEv_not x (hN x h2)).1
          · exact (fillGenEv_not x (hG x h3)).1
          · exact (registerEv_not x (hR x h4)).1
          · exact (fillEv_not x (hF x h5)).1
          · exact (outputEv_not x (hout x h)).1
      · -- top-level creation before nested creation
        apply eventsOrdered_of_split _
          (pevs ++ (blacklistPass env.type_defs).1 ++ mevs)
          (nestedLoopGo 0 env.type_defs ++ ggevs ++
            [Event.registerUnity, Event.registerSystem, Event.registerValueType] ++
            fillLoop env.type_defs.length ++ (outputPhase cli env).1)
        · rw [hm, hev]
          simp [List.append_assoc]
        · intro x hx
          rcases List.mem_append.mp hx with hx | h3
          rcases List.mem_append.mp hx with h1 | h2
          · exact (preEv_not x (hpre x h1)).2.2.1
          · exact (blacklistEv_not x (hB x h2)).2.1
          · exact (topCreateEv_not x (hM x h3)).2.1
        · intro x hx
          rcases List.mem_append.mp hx with hx | h
          rcases List.mem_append.mp hx with hx | h5
          rcases List.mem_append.mp hx with hx | h4
          rcases List.mem_append.mp hx with h2 | h3
          · exact (nestedCreateEv_not x (hN x h2)).2.1
          · exact (fillGenEv_not x (hG x h3)).2.1
          · exact (registerEv_not x (hR x h4)).2.1
          · exact (fillEv_not x (hF x h5)).2.1
          · exact (outputEv_not x (hout x h)).2.1
      · -- handler registration before fill
        apply eventsOrdered_of_split _
          (pevs ++ (blacklistPass env.type_defs).1 ++ mevs ++
            nestedLoopGo 0 env.type_defs ++ ggevs ++
            [Event.registerUnity, Event.registerSystem, Event.registerValueType])
          (fillLoop env.type_defs.length ++ (outputPhase cli env).1)
        · rw [hm, hev]
          simp [List.append_assoc]
        · intro x hx
          rcases List.mem_append.mp hx with hx | h4
          rcases List.mem_append.mp hx with hx | h3
          rcases List.mem_append.mp hx with hx | h2
          rcases List.mem_append.mp hx with hx | h1
          rcases List.mem_append.mp hx with h01 | h02
          · exact (preEv_not x (hpre x h01)).2.2.2.2.2.2.1
          · exact (blacklistEv_not x (hB x h02)).2.2.2.2.2.1
          · exact (topCreateEv_not x (hM x h1)).2.2.2.2.1
          · exact (nestedCreateEv_not x (hN x h2)).2.2.2.2.1
          · exact (fillGenEv_not x (hG x h3)).2.2.2.2.2.1
          · exact (registerEv_not x (hR x h4)).2.2.2.2.2.1
        · intro x hx
          rcases List.mem_append.mp hx with h1 | h2
          · exact (fillEv_not x (hF x h1)).2.2.2.2.2.1
          · exact (outputEv_not x (hout x h2)).2.2.2.2.2.1
      · -- fill before output writes
        apply eventsOrdered_of_split _ (pevs ++ gevs) ((outputPhase cli env).1)
        · rw [hm]
        · intro x hx
          rcases List.mem_append.mp hx with h1 | h2
          · exact (preEv_not x (hpre x h1)).2.2.2.2.2.2.2
          · exact (genEv_not x (genPhase_events cli env x (by rw [hg]; exact h2))).1
        · intro x hx
          exact (outputEv_not x (hout x hx)).2.2.2.2.2.2.1

-- Concrete fixtures used by the witnesses and counterexamples.

def tdTop : TypeDef :=
  { declaring_type_index := u32_max, byval_type_index := 0, full_name := "Top" }

def cliBase : Cli :=
  { metadata := "meta.dat", libil2cpp := "libil2cpp.so", json := none,
    multi_json := none, format := false, remove_verbose_comments := false,
    gen_generic_methods_specializations := false }

def envBase : Env :=
  { header_path_exists := false, metadata_read_err := none,
    elf_read_err := none, parse_ok := true, json_ok := true,
    multi_json_ok := true, type_defs := [tdTop], generic_method_table := [],
    method_specs_len := 0, types_len := 1, write_all_ok := true,
    write_ns_ok := true, fmt_files := [] }

/-- C1 witness: a concrete run that reaches emission satisfies the pass
ordering. -/
theorem generation_passes_strictly_ordered_witness :
    eventsOrdered (main cliBase envBase).1 isBlacklistEv isCreateEv ∧
    eventsOrdered (main cliBase envBase).1 isTopCreateEv isNestedCreateEv ∧
    eventsOrdered (main cliBase envBase).1 isRegisterEv isFillEv ∧
    eventsOrdered (main cliBase envBase).1 isFillEv isWriteEv :=
  generation_passes_strictly_ordered cliBase envBase (by decide)

-- ### Claim C4

theorem resetEvents_kinds (env : Env) :
    ∀ x ∈ resetEvents env, isJsonEv x = false ∧ isReadEv x = false ∧
      isParseEv x = false ∧ isWriteEv x = false := by
  intro x hx
  unfold resetEvents at hx
  rcases List.mem_append.mp hx with hx | hx
  · by_cases hh : env.header_path_exists
    · rw [if_pos hh] at hx
      simp at hx
      subst hx
      exact ⟨rfl, rfl, rfl, rfl⟩
    · rw [if_neg hh] at hx
      simp at hx
  · simp at hx
    rcases hx with rfl | rfl | rfl <;> exact ⟨rfl, rfl, rfl, rfl⟩

/-- C4: when a JSON output path is supplied (and the inputs decode and the
export succeeds), the run performs the JSON export and returns success
without any type-graph creation, fill, generic-method fill or source
emission; moreover in no run do a JSON export and the source emission both
occur. -/
theorem json_mode_bypasses_generation (cli : Cli) (env : Env) (j : String)
    (hj : cli.json = some j) (hm : env.metadata_read_err = none)
    (he : env.elf_read_err = none) (hpk : env.parse_ok = true)
    (hok : env.json_ok = true) :
    (main cli env).2 = RunResult.ok ∧
    Event.jsonExport j ∈ (main cli env).1 ∧
    (∀ e ∈ (main cli env).1, isCreateEv e = false ∧ isFillEv e = false ∧
      isFillGenEv e = false ∧ isWriteEv e = false) ∧
    (∀ cli2 env2 p, ¬(Event.jsonExport p ∈ (main cli2 env2).1 ∧
      Event.writeAll ∈ (main cli2 env2).1)) := by
  have hpre : preGen cli env =
      (resetEvents env ++ [Event.readFile cli.metadata,
        Event.readFile cli.libil2cpp, Event.parseMetadata, Event.parseMethods,
        Event.jsonExport j], some RunResult.ok) := by
    simp [preGen, hj, hm, he, hpk, hok, List.append_assoc]
  have h1 : main cli env =
      (resetEvents env ++ [Event.readFile cli.metadata,
        Event.readFile cli.libil2cpp, Event.parseMetadata, Event.parseMethods,
        Event.jsonExport j], RunResult.ok) := by
    simp [main, hpre]
  refine ⟨by rw [h1], by rw [h1]; simp, ?_, ?_⟩
  · intro e he2
    rw [h1] at he2
    simp only [List.mem_append] at he2
    rcases he2 with h | h
    · have hp2 := resetEvents_pre env e h
      exact ⟨(preEv_not e hp2).2.2.2.1, (preEv_not e hp2).2.2.2.2.2.2.1,
        (preEv_not e hp2).2.2.2.2.1, (preEv_not e hp2).2.2.2.2.2.2.2⟩
    · fin_cases h <;> exact ⟨rfl, rfl, rfl, rfl⟩
  · intro cli2 env2 p hcontra
    obtain ⟨hjson, hwrite⟩ := hcontra
    rcases hp2 : preGen cli2 env2 with ⟨pevs, pres⟩
    cases pres with
    | some r =>
      have hm2 : (main cli2 env2).1 = pevs := by simp [main, hp2]
      rw [hm2] at hwrite
      have := preGen_events cli2 env2 _ (by rw [hp2]; exact hwrite)
      simp [isPreEv, isResetEv, isReadEv, isParseEv, isJsonEv] at this
    | none =>
      obtain ⟨hevs, _, _, _, _, _⟩ := preGen_none cli2 env2 pevs hp2
      have hjson_not_pre : Event.jsonExport p ∉ pevs := by
        rw [hevs]
        intro hmem
        rcases List.mem_append.mp hmem with h | h
        · have := (resetEvents_kinds env2 _ h).1
          simp [isJsonEv] at this
        · simp at h
      rcases hg2 : genPhase cli2 env2 with ⟨gevs, gres⟩
      cases gres with
      | some r =>
        have hm2 : (main cli2 env2).1 = pevs ++ gevs := by
          simp [main, hp2, hg2]
        rw [hm2] at hjson
        rcases List.mem_append.mp hjson with h | h
        · exact hjson_not_pre h
        · have := genPhase_events cli2 env2 _ (by rw [hg2]; exact h)
          simp [isGenEv, isBlacklistEv, isCreateEv, isTopCreateEv,
            isNestedCreateEv, isFillGenEv, isRegisterEv, isFillEv] at this
      | none =>
        have hm2 : (main cli2 env2).1 =
            pevs ++ gevs ++ (outputPhase cli2 env2).1 := by
          simp [main, hp2, hg2]
        rw [hm2] at hjson
        rcases List.mem_append.mp hjson with h | h
        · rcases List.mem_append.mp h with h | h
          · exact hjson_not_pre h
          · have := genPhase_events cli2 env2 _ (by rw [hg2]; exact h)
            simp [isGenEv, isBlacklistEv, isCreateEv, isTopCreateEv,
              isNestedCreateEv, isFillGenEv, isRegisterEv, isFillEv] at this
        · have := outputPhase_events cli2 env2 _ h
          simp [isOutputEv] at this

def cliJson : Cli := { cliBase with json := some "out.json" }

/-- C4 witness: a concrete run with a JSON path exports JSON, succeeds, and
performs no generation or emission. -/
theorem json_mode_bypasses_generation_witness :
    (main cliJson envBase).2 = RunResult.ok ∧
    Event.jsonExport "out.json" ∈ (main cliJson envBase).1 ∧
    (∀ e ∈ (main cliJson envBase).1, isCreateEv e = false ∧ isFillEv e = false ∧
      isFillGenEv e = false ∧ isWriteEv e = false) ∧
    (∀ cli2 env2 p, ¬(Event.jsonExport p ∈ (main cli2 env2).1 ∧
      Event.writeAll ∈ (main cli2 env2).1)) :=
  json_mode_bypasses_generation cliJson envBase "out.json" rfl rfl rfl rfl rfl

-- ### Claim C5

theorem findTdiGo_some_spec (tds : List TypeDef) (name : String) :
    ∀ k i, findTdiGo k tds name = some i →
      ∃ m, ∃ h : m < tds.length, i = k + m ∧
        (tds.get ⟨m, h⟩).full_name = name := by
  induction tds with
  | nil =>
    intro k i h
    simp [findTdiGo] at h
  | cons td rest ih =>
    intro k i h
    simp only [findTdiGo] at h
    by_cases hn : td.full_name = name
    · rw [if_pos hn] at h
      simp at h
      exact ⟨0, by simp, by omega, hn⟩
    · rw [if_neg hn] at h
      obtain ⟨m, hm, him, hname⟩ := ih (k + 1) i h
      exact ⟨m + 1, by simpa using Nat.succ_lt_succ hm, by omega, hname⟩

theorem findTdiGo_some_of_mem (tds : List TypeDef) (name : String)
    (h : ∃ td ∈ tds, td.full_name = name) :
    ∀ k, ∃ i, findTdiGo k tds name = some i := by
  induction tds with
  | nil =>
    rcases h with ⟨td, htd, _⟩
    simp at htd
  | cons td rest ih =>
    intro k
    simp only [findTdiGo]
    by_cases hn : td.full_name = name
    · rw [if_pos hn]
      exact ⟨k, rfl⟩
    · rw [if_neg hn]
      have hrest : ∃ x ∈ rest, x.full_name = name := by
        rcases h with ⟨x, hx, hxn⟩
        rcases List.mem_cons.mp hx with rfl | hx
        · exact absurd hxn hn
        · exact ⟨x, hx, hxn⟩
      exact ih hrest (k + 1)

theorem findTdiGo_none_of (tds : List TypeDef) (name : String)
    (h : ∀ td ∈ tds, td.full_name ≠ name) :
    ∀ k, findTdiGo k tds name = none := by
  induction tds with
  | nil =>
    intro k
    rfl
  | cons td rest ih =>
    intro k
    simp only [findTdiGo]
    rw [if_neg (h td (List.mem_cons_self td rest))]
    exact ih (fun x hx => h x (List.mem_cons_of_mem td hx)) (k + 1)

theorem mem_insertTdi (i : Nat) (st : List Nat) : i ∈ insertTdi i st := by
  unfold insertTdi
  by_cases h : i ∈ st
  · rw [if_pos h]
    exact h
  · rw [if_neg h]
    simp

/-- C5: for every requested blacklist full name, if some type definition's
full name equals it, the (first) matching type-definition index is inserted
into the blacklisted set; otherwise a warning is logged and the set is left
unchanged — the request never fails. -/
theorem blacklist_request_insert_or_warn (tds : List TypeDef) (st : List Nat)
    (name : String) :
    ((∃ td ∈ tds, td.full_name = name) →
      ∃ i, ∃ h : i < tds.length, (tds.get ⟨i, h⟩).full_name = name ∧
        blacklist_type tds st name = ([Event.blacklistInsert i], insertTdi i st) ∧
        i ∈ (blacklist_type tds st name).2) ∧
    ((∀ td ∈ tds, td.full_name ≠ name) →
      blacklist_type tds st name = ([Event.warnBlacklistMiss name], st)) := by
  constructor
  · intro hex
    obtain ⟨i, hfind⟩ := findTdiGo_some_of_mem tds name hex 0
    obtain ⟨m, hm, him, hname⟩ := findTdiGo_some_spec tds name 0 i hfind
    have him2 : i = m := by omega
    subst him2
    have heq : blacklist_type tds st name =
        ([Event.blacklistInsert i], insertTdi i st) := by
      unfold blacklist_type
      rw [hfind]
    exact ⟨i, hm, hname, heq, by rw [heq]; exact mem_insertTdi i st⟩
  · intro hnone
    unfold blacklist_type
    rw [findTdiGo_none_of tds name hnone 0]

/-- C5 witness: a matching request inserts the index; an unmatched request
only warns and leaves the set unchanged. -/
theorem blacklist_request_insert_or_warn_witness :
    (∃ i, ∃ h : i < ([tdTop] : List TypeDef).length,
      (([tdTop] : List TypeDef).get ⟨i, h⟩).full_name = "Top" ∧
      blacklist_type [tdTop] [] "Top" =
        ([Event.blacklistInsert i], insertTdi i []) ∧
      i ∈ (blacklist_type [tdTop] [] "Top").2) ∧
    blacklist_type [tdTop] [] "Missing" =
      ([Event.warnBlacklistMiss "Missing"], []) :=
  ⟨(blacklist_request_insert_or_warn [tdTop] [] "Top").1 (by decide),
    (blacklist_request_insert_or_warn [tdTop] [] "Missing").2 (by decide)⟩

-- ### Claim C6

theorem genPhase_no_fillGen (cli : Cli) (env : Env)
    (hsw : cli.gen_generic_methods_specializations = false) :
    ∀ e ∈ (genPhase cli env).1, isFillGenEv e = false := by
  intro e he
  simp only [genPhase] at he
  split at he
  next mevs r heq =>
    rcases List.mem_append.mp he with h | h
    · exact (blacklistEv_not _ (blacklistPass_events _ _ h)).2.2.2.1
    · exact (topCreateEv_not _
        (makeLoopGo_events _ _ _ _ (by rw [heq]; exact h))).2.2.1
  next mevs heq =>
    split at he
    next gevs r heq2 =>
      rw [if_neg (by simp [hsw])] at heq2
      simp at heq2
    next gevs heq2 =>
      rw [if_neg (by simp [hsw])] at heq2
      have hnil : gevs = [] := by
        have := congrArg Prod.fst heq2
        simpa using this.symm
      subst hnil
      simp only [List.append_assoc] at he
      rcases List.mem_append.mp he with h | h
      · exact (blacklistEv_not _ (blacklistPass_events _ _ h)).2.2.2.1
      rcases List.mem_append.mp h with h | h
      · exact (topCreateEv_not _
          (makeLoopGo_events _ _ _ _ (by rw [heq]; exact h))).2.2.1
      rcases List.mem_append.mp h with h | h
      · exact (nestedCreateEv_not _ (nestedLoopGo_events _ _ _ h)).2.2.1
      rcases List.mem_append.mp h with h | h
      · simp at h
      rcases List.mem_append.mp h with h | h
      · simp at h
        rcases h with rfl | rfl | rfl <;> rfl
      · exact (fillEv_not _ (fillLoop_events _ _ h)).2.2.2.2.1

theorem filter_fillGen_nil_pre (cli : Cli) (env : Env) :
    ((preGen cli env).1).filter isFillGenEv = [] := by
  rw [List.filter_eq_nil_iff]
  intro a ha
  have h2 := (preEv_not a (preGen_events cli env a ha)).2.2.2.2.1
  simp [h2]

theorem filter_fillGen_nil_out (cli : Cli) (env : Env) :
    ((outputPhase cli env).1).filter isFillGenEv = [] := by
  rw [List.filter_eq_nil_iff]
  intro a ha
  have h2 := (outputEv_not a (outputPhase_events cli env a ha)).2.2.2.2.1
  simp [h2]

/-- C6: fill_generic_method_inst is invoked once per entry of the
generic-method table exactly when the gen_generic_methods_specializations
switch is set; when the switch is off no method-level generic specialization
is filled in any run. -/
theorem generic_method_fill_gated (cli : Cli) (env : Env) :
    (cli.gen_generic_methods_specializations = false →
      ((main cli env).1.filter isFillGenEv) = []) ∧
    (cli.gen_generic_methods_specializations = true →
      env.metadata_read_err = none → env.elf_read_err = none →
      env.parse_ok = true → cli.json = none → cli.multi_json = none →
      (∀ td ∈ env.type_defs, td.byval_type_index < env.types_len) →
      (∀ g ∈ env.generic_method_table, g < env.method_specs_len) →
      ((main cli env).1.filter isFillGenEv).length =
        env.generic_method_table.length) := by
  constructor
  · intro hsw
    rcases hp : preGen cli env with ⟨pevs, pres⟩
    have hpevs : pevs.filter isFillGenEv = [] := by
      have := filter_fillGen_nil_pre cli env
      rw [hp] at this
      exact this
    cases pres with
    | some r =>
      have hm1 : (main cli env).1 = pevs := by simp [main, hp]
      rw [hm1]
      exact hpevs
    | none =>
      rcases hg : genPhase cli env with ⟨gevs, gres⟩
      have hgf : gevs.filter isFillGenEv = [] := by
        rw [List.filter_eq_nil_iff]
        intro a ha
        have h2 := genPhase_no_fillGen cli env hsw a (by rw [hg]; exact ha)
        simp [h2]
      cases gres with
      | some r =>
        have hm1 : (main cli env).1 = pevs ++ gevs := by simp [main, hp, hg]
        rw [hm1, List.filter_append, hpevs, hgf]
        rfl
      | none =>
        have hm1 : (main cli env).1 =
            pevs ++ gevs ++ (outputPhase cli env).1 := by
          simp [main, hp, hg]
        rw [hm1, List.filter_append, List.filter_append, hpevs, hgf,
          filter_fillGen_nil_out]
        rfl
  · intro hsw hm he hpk hj hmj hbv hgm
    have hp := preGen_ok_of cli env hm he hpk hj hmj
    rcases hmk : makeLoopGo 0 env.type_defs env.types_len with ⟨mevs, mres⟩
    have hmres : mres = none := by
      have := makeLoopGo_res_none env.type_defs 0 env.types_len hbv
      rw [hmk] at this
      exact this
    subst hmres
    rcases hgq : genericFillGo 0 env.generic_method_table env.method_specs_len
      with ⟨gevs, gres⟩
    have h2 := genericFillGo_res_none env.generic_method_table 0
      env.method_specs_len hgm
    rw [hgq] at h2
    have hgres : gres = none := h2.1
    have hglen : gevs.length = env.generic_method_table.length := h2.2
    subst hgres
    have hg : genPhase cli env =
        ((blacklistPass env.type_defs).1 ++ mevs ++
          nestedLoopGo 0 env.type_defs ++ gevs ++
          [Event.registerUnity, Event.registerSystem, Event.registerValueType] ++
          fillLoop env.type_defs.length, none) := by
      simp [genPhase, hmk, hsw, hgq]
    have hm1 : (main cli env).1 =
        preOkEvents cli env ++
          ((blacklistPass env.type_defs).1 ++ mevs ++
            nestedLoopGo 0 env.type_defs ++ gevs ++
            [Event.registerUnity, Event.registerSystem, Event.registerValueType] ++
            fillLoop env.type_defs.length) ++ (outputPhase cli env).1 := by
      simp [main, hp, hg]
    have hpo : (preOkEvents cli env).filter isFillGenEv = [] := by
      have := filter_fillGen_nil_pre cli env
      rw [hp] at this
      exact this
    have hBf : ((blacklistPass env.type_defs).1).filter isFillGenEv = [] := by
      rw [List.filter_eq_nil_iff]
      intro a ha
      have h3 := (blacklistEv_not a (blacklistPass_events _ a ha)).2.2.2.1
      simp [h3]
    have hMf : mevs.filter isFillGenEv = [] := by
      rw [List.filter_eq_nil_iff]
      intro a ha
      have h3 := (topCreateEv_not a (makeLoopGo_events env.type_defs 0
        env.types_len a (by rw [hmk]; exact ha))).2.2.1
      simp [h3]
    have hNf : (nestedLoopGo 0 env.type_defs).filter isFillGenEv = [] := by
      rw [List.filter_eq_nil_iff]
      intro a ha
      have h3 := (nestedCreateEv_not a (nestedLoopGo_events _ _ a ha)).2.2.1
      simp [h3]
    have hGf : gevs.filter isFillGenEv = gevs :=
      List.filter_eq_self.mpr (fun a ha =>
        genericFillGo_events env.generic_method_table 0 env.method_specs_len a
          (by rw [hgq]; exact ha))
    have hFf : (fillLoop env.type_defs.length).filter isFillGenEv = [] := by
      rw [List.filter_eq_nil_iff]
      intro a ha
      have h3 := (fillEv_not a (fillLoop_events _ a ha)).2.2.2.2.1
      simp [h3]
    rw [hm1]
    simp only [List.filter_append, hpo, hBf, hMf, hNf, hGf, hFf,
      filter_fillGen_nil_out]
    simp [hglen, isFillGenEv]

def cliGen : Cli := { cliBase with gen_generic_methods_specializations := true }

def envGen : Env :=
  { envBase with generic_method_table := [0], method_specs_len := 1 }

/-- C6 witness: with the switch off no specialization is filled; with the
switch on, one fill event per generic-method-table entry occurs. -/
theorem generic_method_fill_gated_witness :
    ((main cliBase envBase).1.filter isFillGenEv) = [] ∧
    ((main cliGen envGen).1.filter isFillGenEv).length = 1 :=
  ⟨(generic_method_fill_gated cliBase envBase).1 rfl,
    (generic_method_fill_gated cliGen envGen).2 rfl rfl rfl rfl rfl rfl
      (by decide) (by decide)⟩

-- ### Claim C7

theorem preGen_starts_reset (cli : Cli) (env : Env) :
    ∃ t, (preGen cli env).1 = resetEvents env ++ t ∧
      ∀ e ∈ t, (isReadEv e || isParseEv e || isJsonEv e) = true := by
  simp only [preGen]
  split
  next e1 heq =>
    refine ⟨[Event.readFile cli.metadata], by simp, ?_⟩
    intro e he
    simp at he
    subst he
    rfl
  next heq =>
    split
    next e2 heq2 =>
      refine ⟨[Event.readFile cli.metadata, Event.readFile cli.libil2cpp],
        by simp, ?_⟩
      intro e he
      simp at he
      rcases he with rfl | rfl <;> rfl
    next heq2 =>
      split
      next hpc =>
        refine ⟨[Event.readFile cli.metadata, Event.readFile cli.libil2cpp,
          Event.parseMetadata], by simp, ?_⟩
        intro e he
        simp at he
        rcases he with rfl | rfl | rfl <;> rfl
      next hpc =>
        split
        next j heqj =>
          refine ⟨[Event.readFile cli.metadata, Event.readFile cli.libil2cpp,
            Event.parseMetadata, Event.parseMethods, Event.jsonExport j],
            by simp [List.append_assoc], ?_⟩
          intro e he
          simp at he
          rcases he with rfl | rfl | rfl | rfl | rfl <;> rfl
        next heqj =>
          split
          next mj heqm =>
            refine ⟨[Event.readFile cli.metadata, Event.readFile cli.libil2cpp,
              Event.parseMetadata, Event.parseMethods,
              Event.multiJsonExport mj], by simp [List.append_assoc], ?_⟩
            intro e he
            simp at he
            rcases he with rfl | rfl | rfl | rfl | rfl <;> rfl
          next heqm =>
            refine ⟨[Event.readFile cli.metadata, Event.readFile cli.libil2cpp,
              Event.parseMetadata, Event.parseMethods],
              by simp [List.append_assoc], ?_⟩
            intro e he
            simp at he
            rcases he with rfl | rfl | rfl | rfl <;> rfl

theorem rootReset_false_of_rpj (e : Event)
    (h : (isReadEv e || isParseEv e || isJsonEv e) = true) :
    isRootResetEv e = false := by
  cases e <;> simp_all [isReadEv, isParseEv, isJsonEv, isRootResetEv]

/-- C7: at the start of every run, before any input is read or parsed, any
export happens, or any output is written, the output root is deleted (exactly
when it exists) and recreated: the trace begins with the conditional
removeDirAll of the root followed by its createDirAll, and every root
reset event precedes every read/parse/export/write/format event. -/
theorem output_root_reset_before_io (cli : Cli) (env : Env) :
    (∃ rest, (main cli env).1 =
      (if env.header_path_exists then [Event.removeDirAll header_path] else []) ++
        Event.createDirAll header_path :: rest) ∧
    eventsOrdered (main cli env).1 isRootResetEv
      (fun e => isReadEv e || isParseEv e || isJsonEv e || isWriteEv e ||
        isFormatEv e) := by
  obtain ⟨t, hsh, hts⟩ := preGen_starts_reset cli env
  have haq : ∀ x ∈ ((if env.header_path_exists then
      [Event.removeDirAll header_path] else []) ++
      [Event.createDirAll header_path]),
      (isReadEv x || isParseEv x || isJsonEv x || isWriteEv x ||
        isFormatEv x) = false := by
    intro x hx
    rcases List.mem_append.mp hx with h | h
    · by_cases hh : env.header_path_exists
      · rw [if_pos hh] at h
        simp at h
        subst h
        rfl
      · rw [if_neg hh] at h
        simp at h
    · simp at h
      subst h
      rfl
  have hb2 : ∀ x ∈ [Event.createDirAll dst_internals_path,
      Event.extractInternals], isRootResetEv x = false := by
    intro x hx
    simp at hx
    rcases hx with rfl | rfl
    · decide
    · rfl
  have hbt : ∀ x ∈ t, isRootResetEv x = false :=
    fun x hx => rootReset_false_of_rpj x (hts x hx)
  rcases hp : preGen cli env with ⟨pevs, pres⟩
  rw [hp] at hsh
  replace hsh : pevs = resetEvents env ++ t := hsh
  cases pres with
  | some r =>
    have hm1 : (main cli env).1 = pevs := by simp [main, hp]
    constructor
    · refine ⟨[Event.createDirAll dst_internals_path, Event.extractInternals] ++
        t, ?_⟩
      rw [hm1, hsh]
      simp [resetEvents, List.append_assoc]
    · apply eventsOrdered_of_split _
        ((if env.header_path_exists then [Event.removeDirAll header_path]
          else []) ++ [Event.createDirAll header_path])
        ([Event.createDirAll dst_internals_path, Event.extractInternals] ++ t)
      · rw [hm1, hsh]
        simp [resetEvents, List.append_assoc]
      · exact haq
      · intro x hx
        rcases List.mem_append.mp hx with h | h
        · exact hb2 x h
        · exact hbt x h
  | none =>
    rcases hg : genPhase cli env with ⟨gevs, gres⟩
    have hbg : ∀ x ∈ gevs, isRootResetEv x = false := fun x hx =>
      (genEv_not x (genPhase_events cli env x (by rw [hg]; exact hx))).2.2.2.1
    cases gres with
    | some r =>
      have hm1 : (main cli env).1 = pevs ++ gevs := by simp [main, hp, hg]
      constructor
      · refine ⟨[Event.createDirAll dst_internals_path,
          Event.extractInternals] ++ t ++ gevs, ?_⟩
        rw [hm1, hsh]
        simp [resetEvents, List.append_assoc]
      · apply eventsOrdered_of_split _
          ((if env.header_path_exists then [Event.removeDirAll header_path]
            else []) ++ [Event.createDirAll header_path])
          ([Event.createDirAll dst_internals_path, Event.extractInternals] ++
            t ++ gevs)
        · rw [hm1, hsh]
          simp [resetEvents, List.append_assoc]
        · exact haq
        · intro x hx
          rcases List.mem_append.mp hx with h | h
          · rcases List.mem_append.mp h with h | h
            · exact hb2 x h
            · exact hbt x h
          · exact hbg x h
    | none =>
      have hbo : ∀ x ∈ (outputPhase cli env).1, isRootResetEv x = false :=
        fun x hx =>
          (outputEv_not x (outputPhase_events cli env x hx)).2.2.2.2.2.2.2.2.2
      have hm1 : (main cli env).1 = pevs ++ gevs ++ (outputPhase cli env).1 := by
        simp [main, hp, hg]
      constructor
      · refine ⟨[Event.createDirAll dst_internals_path,
          Event.extractInternals] ++ t ++ gevs ++ (outputPhase cli env).1, ?_⟩
        rw [hm1, hsh]
        simp [resetEvents, List.append_assoc]
      · apply eventsOrdered_of_split _
          ((if env.header_path_exists then [Event.removeDirAll header_path]
            else []) ++ [Event.createDirAll header_path])
          ([Event.createDirAll dst_internals_path, Event.extractInternals] ++
            t ++ gevs ++ (outputPhase cli env).1)
        · rw [hm1, hsh]
          simp [resetEvents, List.append_assoc]
        · exact haq
        · intro x hx
          rcases List.mem_append.mp hx with h | h
          · rcases List.mem_append.mp h with h | h
            · rcases List.mem_append.mp h with h | h
              · exact hb2 x h
              · exact hbt x h
            · exact hbg x h
          · exact hbo x h

-- ### Claim C8

/-- C8: a generic-instantiation request whose definition cannot be found — a
generic-method index with no method-specs entry, or a byval type index
outside the types table — panics (a fatal, process-ending fault rather than
a recoverable error); and under the precondition that all such indices are
in bounds, no run ends in a panic. -/
theorem missing_generic_definition_is_fatal (cli : Cli) (env : Env) :
    (env.metadata_read_err = none → env.elf_read_err = none →
      env.parse_ok = true → cli.json = none → cli.multi_json = none →
      (∃ td ∈ env.type_defs, env.types_len ≤ td.byval_type_index) →
      (main cli env).2 = RunResult.panic "index out of bounds") ∧
    (env.metadata_read_err = none → env.elf_read_err = none →
      env.parse_ok = true → cli.json = none → cli.multi_json = none →
      (∀ td ∈ env.type_defs, td.byval_type_index < env.types_len) →
      cli.gen_generic_methods_specializations = true →
      (∃ g ∈ env.generic_method_table, env.method_specs_len ≤ g) →
      (main cli env).2 = RunResult.panic "called unwrap on a None value") ∧
    ((∀ td ∈ env.type_defs, td.byval_type_index < env.types_len) →
      (∀ g ∈ env.generic_method_table, g < env.method_specs_len) →
      ∀ m, (main cli env).2 ≠ RunResult.panic m) := by
  refine ⟨?_, ?_, ?_⟩
  · intro hm he hpk hj hmj hbad
    have hp := preGen_ok_of cli env hm he hpk hj hmj
    have hres := makeLoopGo_res_some env.type_defs 0 env.types_len hbad
    rcases hmk : makeLoopGo 0 env.type_defs env.types_len with ⟨mevs, mres⟩
    rw [hmk] at hres
    replace hres : mres = some (RunResult.panic "index out of bounds") := hres
    subst hres
    simp [main, hp, genPhase, hmk]
  · intro hm he hpk hj hmj hbv hsw hbad
    have hp := preGen_ok_of cli env hm he hpk hj hmj
    rcases hmk : makeLoopGo 0 env.type_defs env.types_len with ⟨mevs, mres⟩
    have hm0 : mres = none := by
      have := makeLoopGo_res_none env.type_defs 0 env.types_len hbv
      rw [hmk] at this
      exact this
    subst hm0
    have hgr := genericFillGo_res_some env.generic_method_table 0
      env.method_specs_len hbad
    rcases hgq : genericFillGo 0 env.generic_method_table env.method_specs_len
      with ⟨gevs, gres⟩
    rw [hgq] at hgr
    replace hgr : gres = some (RunResult.panic "called unwrap on a None value") :=
      hgr
    subst hgr
    simp [main, hp, genPhase, hmk, hsw, hgq]
  · intro hbv hgm m hcon
    rcases hp2 : preGen cli env with ⟨pevs, pres⟩
    cases pres with
    | some r =>
      have hr : (main cli env).2 = r := by simp [main, hp2]
      rw [hr] at hcon
      rcases preGen_some_result cli env pevs r hp2 with hok | ⟨m2, herr⟩
      · subst hok
        exact RunResult.noConfusion hcon
      · subst herr
        exact RunResult.noConfusion hcon
    | none =>
      rcases hmk : makeLoopGo 0 env.type_defs env.types_len with ⟨mevs, mres⟩
      have hm0 : mres = none := by
        have := makeLoopGo_res_none env.type_defs 0 env.types_len hbv
        rw [hmk] at this
        exact this
      subst hm0
      rcases hgq : (if cli.gen_generic_methods_specializations then
          genericFillGo 0 env.generic_method_table env.method_specs_len
        else ([], none)) with ⟨gevs, gres⟩
      have hg0 : gres = none := by
        by_cases hsw : cli.gen_generic_methods_specializations = true
        · rw [if_pos hsw] at hgq
          have := (genericFillGo_res_none env.generic_method_table 0
            env.method_specs_len hgm).1
          rw [hgq] at this
          exact this
        · rw [if_neg hsw] at hgq
          have := congrArg Prod.snd hgq
          simpa using this.symm
      subst hg0
      have hr : (main cli env).2 = (outputPhase cli env).2 := by
        simp [main, hp2, genPhase, hmk, hgq]
      rw [hr] at hcon
      rcases outputPhase_result cli env with hok | ⟨m2, herr⟩
      · rw [hok] at hcon
        exact RunResult.noConfusion hcon
      · rw [herr] at hcon
        exact RunResult.noConfusion hcon

def tdBad : TypeDef :=
  { declaring_type_index := u32_max, byval_type_index := 7, full_name := "Bad" }

def envBadByval : Env := { envBase with type_defs := [tdBad] }

def envBadGm : Env :=
  { envBase with generic_method_table := [5], method_specs_len := 1 }

/-- C8 witness: a byval index outside the types table panics, a
generic-method index with no method-specs entry panics, and an in-bounds run
never panics. -/
theorem missing_generic_definition_is_fatal_witness :
    (main cliBase envBadByval).2 = RunResult.panic "index out of bounds" ∧
    (main cliGen envBadGm).2 =
      RunResult.panic "called unwrap on a None value" ∧
    (∀ m, (main cliBase envBase).2 ≠ RunResult.panic m) :=
  ⟨(missing_generic_definition_is_fatal cliBase envBadByval).1
      rfl rfl rfl rfl rfl (by decide),
    (missing_generic_definition_is_fatal cliGen envBadGm).2.1
      rfl rfl rfl rfl rfl (by decide) rfl (by decide),
    (missing_generic_definition_is_fatal cliBase envBase).2.2
      (by decide) (by decide)⟩

-- ### Claim C9

theorem filter_read_resetEvents (env : Env) :
    (resetEvents env).filter isReadEv = [] := by
  unfold resetEvents
  by_cases hh : env.header_path_exists
  · rw [if_pos hh]
    rfl
  · rw [if_neg hh]
    rfl

theorem filter_read_genPhase (cli : Cli) (env : Env) :
    ((genPhase cli env).1).filter isReadEv = [] := by
  rw [List.filter_eq_nil_iff]
  intro a ha
  have h2 := (genEv_not a (genPhase_events cli env a ha)).2.1
  simp [h2]

theorem filter_read_outputPhase (cli : Cli) (env : Env) :
    ((outputPhase cli env).1).filter isReadEv = [] := by
  rw [List.filter_eq_nil_iff]
  intro a ha
  have h2 := (outputEv_not a (outputPhase_events cli env a ha)).2.2.2.2.2.2.2.1
  simp [h2]

theorem preGen_reads (cli : Cli) (env : Env)
    (hm : env.metadata_read_err = none) (he : env.elf_read_err = none) :
    ((preGen cli env).1).filter isReadEv =
      [Event.readFile cli.metadata, Event.readFile cli.libil2cpp] := by
  simp only [preGen, hm, he]
  split
  next hpc =>
    rw [List.filter_append, filter_read_resetEvents]
    rfl
  next hpc =>
    split
    next j heqj =>
      simp only [List.append_assoc, List.cons_append, List.nil_append]
      rw [List.filter_append, filter_read_resetEvents]
      rfl
    next heqj =>
      split
      next mj heqm =>
        simp only [List.append_assoc, List.cons_append, List.nil_append]
        rw [List.filter_append, filter_read_resetEvents]
        rfl
      next heqm =>
        simp only [List.append_assoc, List.cons_append, List.nil_append]
        rw [List.filter_append, filter_read_resetEvents]
        rfl

/-- C9 (amended): a failure reading either input file is fatal with a
non-zero exit whose report carries a fixed role label ("il2cpp metadata" /
"libil2cpp.so shared object") identifying which input failed — not the
supplied path; each input is read fully into memory at most once (exactly
once for each read the run reaches, and the native module is not read at all
when the metadata read fails). -/
theorem input_read_failures_fatal_labelled (cli : Cli) (env : Env) :
    (∀ e, env.metadata_read_err = some e →
      (main cli env).2 = RunResult.err ("il2cpp metadata: " ++ e) ∧
      (main cli env).1.filter isReadEv = [Event.readFile cli.metadata]) ∧
    (∀ e, env.metadata_read_err = none → env.elf_read_err = some e →
      (main cli env).2 = RunResult.err ("libil2cpp.so shared object: " ++ e) ∧
      (main cli env).1.filter isReadEv =
        [Event.readFile cli.metadata, Event.readFile cli.libil2cpp]) ∧
    (env.metadata_read_err = none → env.elf_read_err = none →
      (main cli env).1.filter isReadEv =
        [Event.readFile cli.metadata, Event.readFile cli.libil2cpp]) := by
  refine ⟨?_, ?_, ?_⟩
  · intro e hm
    have hpre : preGen cli env =
        (resetEvents env ++ [Event.readFile cli.metadata],
          some (RunResult.err ("il2cpp metadata: " ++ e))) := by
      simp [preGen, hm]
    have hm1 : main cli env =
        (resetEvents env ++ [Event.readFile cli.metadata],
          RunResult.err ("il2cpp metadata: " ++ e)) := by
      simp [main, hpre]
    constructor
    · rw [hm1]
    · rw [hm1]
      simp only [List.filter_append, filter_read_resetEvents]
      rfl
  · intro e hm he
    have hpre : preGen cli env =
        (resetEvents env ++ [Event.readFile cli.metadata,
          Event.readFile cli.libil2cpp],
          some (RunResult.err ("libil2cpp.so shared object: " ++ e))) := by
      simp [preGen, hm, he]
    have hm1 : main cli env =
        (resetEvents env ++ [Event.readFile cli.metadata,
          Event.readFile cli.libil2cpp],
          RunResult.err ("libil2cpp.so shared object: " ++ e)) := by
      simp [main, hpre]
    constructor
    · rw [hm1]
    · rw [hm1]
      simp only [List.filter_append, filter_read_resetEvents]
      rfl
  · intro hm he
    rcases hp2 : preGen cli env with ⟨pevs, pres⟩
    have hpf : pevs.filter isReadEv =
        [Event.readFile cli.metadata, Event.readFile cli.libil2cpp] := by
      have := preGen_reads cli env hm he
      rw [hp2] at this
      exact this
    cases pres with
    | some r =>
      have hm1 : (main cli env).1 = pevs := by simp [main, hp2]
      rw [hm1]
      exact hpf
    | none =>
      rcases hg : genPhase cli env with ⟨gevs, gres⟩
      have hgf : gevs.filter isReadEv = [] := by
        have := filter_read_genPhase cli env
        rw [hg] at this
        exact this
      cases gres with
      | some r =>
        have hm1 : (main cli env).1 = pevs ++ gevs := by simp [main, hp2, hg]
        rw [hm1, List.filter_append, hpf, hgf]
        simp
      | none =>
        have hm1 : (main cli env).1 =
            pevs ++ gevs ++ (outputPhase cli env).1 := by
          simp [main, hp2, hg]
        rw [hm1, List.filter_append, List.filter_append, hpf, hgf,
          filter_read_outputPhase]
        simp

def cliPathA : Cli := { cliBase with metadata := "meta_a.dat" }

def cliPathB : Cli := { cliBase with metadata := "meta_b.dat" }

def envReadFail : Env :=
  { envBase with
    metadata_read_err := some "No such file or directory (os error 2)" }

/-- C9 counterexample: two runs whose metadata paths differ produce the very
same failure report when the read fails, so the report cannot identify the
offending path (it carries only the fixed role label). -/
theorem read_error_report_has_no_path :
    cliPathA.metadata ≠ cliPathB.metadata ∧
    (main cliPathA envReadFail).2 ≠ RunResult.ok ∧
    (main cliPathA envReadFail).2 =
      RunResult.err "il2cpp metadata: No such file or directory (os error 2)" ∧
    (main cliPathA envReadFail).2 = (main cliPathB envReadFail).2 := by
  decide

/-- C9 witness: a concrete failing metadata read yields the labelled fatal
error after reading the metadata input exactly once and the module input not
at all. -/
theorem input_read_failures_fatal_labelled_witness :
    (main cliPathA envReadFail).2 =
      RunResult.err
        ("il2cpp metadata: " ++ "No such file or directory (os error 2)") ∧
    (main cliPathA envReadFail).1.filter isReadEv =
      [Event.readFile cliPathA.metadata] :=
  (input_read_failures_fatal_labelled cliPathA envReadFail).1
    "No such file or directory (os error 2)" rfl

-- ### Claim C3

def fmtBig : FmtFile :=
  { path := "a.hpp", size := 100, spawn_ok := true, stderr_out := "",
    exit_code := 1 }

def fmtSmall : FmtFile :=
  { path := "b.hpp", size := 10, spawn_ok := true, stderr_out := "",
    exit_code := 0 }

def fmtWarn : FmtFile :=
  { path := "c.hpp", size := 1, spawn_ok := true, stderr_out := "warning: x",
    exit_code := 0 }

/-- C3 counterexample: with two files where clang-format exits non-zero on
the first-processed (largest) file, format_files aborts with an error and
the remaining file is never processed — refuting that a per-file formatting
failure never stops processing of other files or aborts the pass. -/
theorem format_failure_aborts_pass :
    format_files [fmtSmall, fmtBig] =
      ([Event.formatFile "a.hpp"], some (RunResult.err "ExitStatusError")) ∧
    Event.formatFile "b.hpp" ∉ (format_files [fmtSmall, fmtBig]).1 := by
  decide

/-- C3 (amended): when clang-format runs and exits zero on a file, any
stderr diagnostic is reported for that file only and the remaining files are
still processed; a non-zero clang-format exit status aborts the formatting
pass with an error, leaving the remaining files unprocessed. -/
theorem format_stderr_nonfatal_exit_fatal (f : FmtFile) (rest : List FmtFile) :
    (f.spawn_ok = true → f.exit_code = 0 →
      (formatFilesGo (f :: rest)).1 =
        (Event.formatFile f.path ::
          (if f.stderr_out = "" then []
            else [Event.formatError f.path f.stderr_out])) ++
          (formatFilesGo rest).1 ∧
      (formatFilesGo (f :: rest)).2 = (formatFilesGo rest).2) ∧
    (f.spawn_ok = true → f.exit_code ≠ 0 →
      formatFilesGo (f :: rest) =
        (Event.formatFile f.path ::
          (if f.stderr_out = "" then []
            else [Event.formatError f.path f.stderr_out]),
          some (RunResult.err "ExitStatusError"))) := by
  constructor
  · intro hs hc
    have hone : formatOne f =
        (Event.formatFile f.path ::
          (if f.stderr_out = "" then []
            else [Event.formatError f.path f.stderr_out]), none) := by
      simp only [formatOne]
      rw [if_neg (by simp [hs]), if_pos hc]
    constructor
    · simp [formatFilesGo, hone]
    · simp [formatFilesGo, hone]
  · intro hs hc
    have hone : formatOne f =
        (Event.formatFile f.path ::
          (if f.stderr_out = "" then []
            else [Event.formatError f.path f.stderr_out]),
          some (RunResult.err "ExitStatusError")) := by
      simp only [formatOne]
      rw [if_neg (by simp [hs]), if_neg hc]
    simp [formatFilesGo, hone]

/-- C3 witness: a file with stderr output but exit 0 is reported and does not
stop the next file; a non-zero exit aborts with the remaining file
unprocessed. -/
theorem format_stderr_nonfatal_exit_fatal_witness :
    ((formatFilesGo [fmtWarn, fmtSmall]).1 =
      (Event.formatFile "c.hpp" ::
        (if fmtWarn.stderr_out = "" then []
          else [Event.formatError "c.hpp" "warning: x"])) ++
        (formatFilesGo [fmtSmall]).1 ∧
      (formatFilesGo [fmtWarn, fmtSmall]).2 = (formatFilesGo [fmtSmall]).2) ∧
    formatFilesGo [fmtBig, fmtSmall] =
      (Event.formatFile "a.hpp" ::
        (if fmtBig.stderr_out = "" then []
          else [Event.formatError "a.hpp" ""]),
        some (RunResult.err "ExitStatusError")) :=
  ⟨(format_stderr_nonfatal_exit_fatal fmtWarn [fmtSmall]).1 rfl rfl,
    (format_stderr_nonfatal_exit_fatal fmtBig [fmtSmall]).2 rfl (by decide)⟩

end Cordl
